import Mathlib

/-!
Verification development for the AI-Resume-Reviewer application (`app.py`).

The analysis core of the program is shallowly embedded here:
* text is modelled as `List Char`;
* Python regular-expression character classes are modelled over their ASCII
  core (`[A-Z]`, `[a-z]`, `\d`, `\w`, `\s`), which covers every input the
  specification and its scenarios mention;
* the zero-shot classifier is external to the repository, so the scoring
  function is embedded over the list of per-label confidences it returns;
* PDF page decoding is external, so text extraction is embedded over the
  list of per-page extracted strings.
-/

namespace ResumeReviewer

/-- ASCII range of the regex character class `[A-Z]`. -/
def isUpperAZ (c : Char) : Bool := 'A' ≤ c && c ≤ 'Z'

/-- ASCII range of the regex character class `[a-z]`. -/
def isLowerAZ (c : Char) : Bool := 'a' ≤ c && c ≤ 'z'

/-- ASCII range of the regex character class `\d`. -/
def isDigit09 (c : Char) : Bool := '0' ≤ c && c ≤ '9'

/-- Regex word character `\w` (ASCII core: letters, digits, underscore). -/
def isWordChar (c : Char) : Bool := isUpperAZ c || isLowerAZ c || isDigit09 c || c = '_'

/-- Python whitespace as matched by `\s` and stripped by `str.strip()` (ASCII core). -/
def isPySpace (c : Char) : Bool :=
  c = ' ' || c = '\t' || c = '\n' || c = '\r' || c = '\x0b' || c = '\x0c'

/-- Python `str.lower()` on a single character (ASCII core). -/
def pyLowerChar (c : Char) : Char :=
  if isUpperAZ c then Char.ofNat (c.toNat + 32) else c

/-- Python `str.lower()`: lower-case every character of the text. -/
def pyLower (s : List Char) : List Char := s.map pyLowerChar

/-- Python substring test `pat in s`. -/
def containsSub (pat : List Char) : List Char → Bool
  | [] => pat.isEmpty
  | c :: rest => pat.isPrefixOf (c :: rest) || containsSub pat rest

/-- Python `str.strip()`: drop whitespace from both ends. -/
def pyStrip (s : List Char) : List Char :=
  ((s.dropWhile isPySpace).reverse.dropWhile isPySpace).reverse

/-- The fixed candidate label set passed to the zero-shot classifier
(`candidate_labels` in `get_resume_score`). -/
def candidate_labels : List (List Char) :=
  [ "Strong technical skills".toList
  , "Experience with project management".toList
  , "Clear and concise summary".toList
  , "Measurable achievements included".toList
  , "Well-structured and easy to read".toList
  , "Relevant keywords for the job".toList
  , "Excellent communication skills".toList ]

/-- The scorer `get_resume_score`, embedded over the list of per-label confidences
returned by the classifier: `sum(result[scores]) / len(result[scores]) * 100`. -/
def get_resume_score (scores : List ℚ) : ℚ :=
  scores.sum / (scores.length : ℚ) * 100

/-- The extractor `extract_text_from_pdf`, embedded over the list of per-page extracted
texts: starting from the empty string, append each page's text in order. -/
def extract_text_from_pdf (pages : List (List Char)) : List Char :=
  pages.foldl (fun acc p => acc ++ p) []

/-- Match `[A-Z][a-z]+` at the head of the list, returning the matched word
and the rest of the input.  The greedy `[a-z]+` run never needs to
backtrack: whatever follows it in the surrounding pattern is a space or the
end of the match, never a lowercase letter. -/
def parseCapWord : List Char → Option (List Char × List Char)
  | [] => none
  | c :: rest =>
    if isUpperAZ c then
      if (rest.takeWhile isLowerAZ).isEmpty then none
      else some (c :: rest.takeWhile isLowerAZ, rest.dropWhile isLowerAZ)
    else none

/-- Greedy match of `(?: [A-Z][a-z]+)*`, with explicit fuel (any fuel of at
least the input length is enough); returns the matched text and the rest. -/
def parseNameTailF : Nat → List Char → List Char × List Char
  | 0, s => ([], s)
  | _ + 1, [] => ([], [])
  | fuel + 1, c :: rest =>
    if c = ' ' then
      match parseCapWord rest with
      | some (w, r) =>
        let p := parseNameTailF fuel r
        (' ' :: (w ++ p.1), p.2)
      | none => ([], c :: rest)
    else ([], c :: rest)

/-- Search `name_pattern.search(text)` for `^[A-Z][a-z]+(?: [A-Z][a-z]+)+`: the `^`
anchor (without a MULTILINE flag) restricts the search to position 0, and
the group `(?: [A-Z][a-z]+)+` must iterate at least once. -/
def nameSearch (t : List Char) : Option (List Char) :=
  match parseCapWord t with
  | none => none
  | some (w, r) =>
    let p := parseNameTailF r.length r
    if p.1.isEmpty then none else some (w ++ p.1)

/-- The character class `[\w\.-]` of the email pattern. -/
def isEmailChar (c : Char) : Bool := isWordChar c || c = '.' || c = '-'

/-- Match `[\w\.-]+@[\w\.-]+` exactly at the head of the list.  Both greedy
runs are backtrack-free because `@` is not in the character class. -/
def emailMatchAt (s : List Char) : Option (List Char) :=
  if (s.takeWhile isEmailChar).isEmpty then none
  else
    match s.dropWhile isEmailChar with
    | '@' :: rest =>
      if (rest.takeWhile isEmailChar).isEmpty then none
      else some (s.takeWhile isEmailChar ++ '@' :: rest.takeWhile isEmailChar)
    | _ => none

/-- Search `email_pattern.search(text)`: leftmost match of `[\w\.-]+@[\w\.-]+`. -/
def emailSearch : List Char → Option (List Char)
  | [] => none
  | c :: rest =>
    match emailMatchAt (c :: rest) with
    | some m => some m
    | none => emailSearch rest

/-- Consume an exact literal from the head of the list. -/
def dropLit : List Char → List Char → Option (List Char)
  | [], s => some s
  | _ :: _, [] => none
  | c :: cs, d :: ds => if c = d then dropLit cs ds else none

/-- Match `(\d+)\s+year[s]?\s+experience` exactly at the head of the list,
returning capture group 1 (the digits).  The optional `[s]?` is consumed
exactly when an `s` is present: declining a present `s` would leave `\s+`
to fail on that same `s`. -/
def expMatchAt (s : List Char) : Option (List Char) :=
  let ds := s.takeWhile isDigit09
  if ds.isEmpty then none
  else
    let r1 := s.dropWhile isDigit09
    if (r1.takeWhile isPySpace).isEmpty then none
    else
      match dropLit "year".toList (r1.dropWhile isPySpace) with
      | none => none
      | some r3 =>
        let r4 := match r3 with
                  | 's' :: r => r
                  | _ => r3
        if (r4.takeWhile isPySpace).isEmpty then none
        else
          match dropLit "experience".toList (r4.dropWhile isPySpace) with
          | none => none
          | some _ => some ds

/-- Search `experience_pattern.search(text.lower())`: leftmost match, group 1. -/
def expSearch : List Char → Option (List Char)
  | [] => none
  | c :: rest =>
    match expMatchAt (c :: rest) with
    | some g => some g
    | none => expSearch rest

/-- Python `text.split` on the newline character. -/
def splitLines : List Char → List (List Char)
  | [] => [[]]
  | c :: rest =>
    if c = '\n' then [] :: splitLines rest
    else
      match splitLines rest with
      | [] => [[c]]
      | l :: ls => (c :: l) :: ls

/-- The position-line test of `extract_data_from_text`: the line contains
none of the four keywords (case-insensitively) and is shorter than 50
characters. -/
def lineQualifies (line : List Char) : Bool :=
  (!containsSub "experience".toList (pyLower line) &&
   !containsSub "education".toList (pyLower line) &&
   !containsSub "skills".toList (pyLower line) &&
   !containsSub "contact".toList (pyLower line)) &&
  decide (line.length < 50)

/-- The position-extraction loop of `extract_data_from_text`: the first
qualifying line is stripped and the loop breaks there. -/
def findPosition : List (List Char) → List Char
  | [] => "Not found".toList
  | line :: rest =>
    if lineQualifies line then pyStrip line else findPosition rest

/-- The result map of `extract_data_from_text`: its five fixed keys. -/
structure ExtractedData where
  name : List Char
  position : List Char
  email : List Char
  experience : List Char
  skills : List Char
deriving DecidableEq

/-- The field extractor `extract_data_from_text`. -/
def extract_data_from_text (text : List Char) : ExtractedData :=
  { name := match nameSearch text with
            | some m => m
            | none => "Not found".toList
  , position := findPosition (splitLines text)
  , email := match emailSearch text with
             | some m => m
             | none => "Not found".toList
  , experience := match expSearch (pyLower text) with
                  | some g => g ++ " years".toList
                  | none => "Not found".toList
  , skills := if containsSub "Skills".toList text then
                "Explicit Skills section found.".toList
              else
                "No explicit skills section is present; consider adding one.".toList }

/-- Non-overlapping occurrence count of a literal pattern, scanning left to
right, with explicit fuel (any fuel of at least the input length is
enough). -/
def countOccF (pat : List Char) : Nat → List Char → Nat
  | 0, _ => 0
  | _ + 1, [] => 0
  | fuel + 1, c :: rest =>
    if pat.isPrefixOf (c :: rest) then
      1 + countOccF pat fuel (rest.drop (pat.length - 1))
    else
      countOccF pat fuel rest

/-- Python `len(re.findall(pat, s))` for a literal pattern `pat`. -/
def countOcc (pat s : List Char) : Nat := countOccF pat s.length s

/-- The result map of `get_detailed_feedback`: its five fixed categories. -/
structure Feedback where
  grammatical_errors : List (List Char)
  professional_tone : List (List Char)
  unnecessary_information : List (List Char)
  experience_relevance : List (List Char)
  skills_relevance : List (List Char)
deriving DecidableEq

/-- Finding text of the grammar rule. -/
def grammarMsg : List Char :=
  "The phrase \x27years experience\x27 should be \x27years of experience\x27 for correct grammar.".toList

/-- Finding text of the professional-tone rule. -/
def toneMsg : List Char :=
  "The phrase \x27Determined work placement\x27 could be stronger as \x27Determined and assigned work placements\x27 using stronger action verbs.".toList

/-- Finding text of the unnecessary-information (GPA) rule. -/
def gpaMsg : List Char :=
  "The detailed GPA breakdown may be excessive unless applying for academic roles; consider summarizing.".toList

/-- Finding text of the experience-relevance rule. -/
def mixedMsg : List Char :=
  "The resume mixes different types of experience; consider tailoring or separating sections more clearly.".toList

/-- Finding text of the skills-relevance rule. -/
def noSkillsMsg : List Char :=
  "No explicit skills section is present; important skills should be clearly listed to improve ATS parsing.".toList

/-- The feedback engine `get_detailed_feedback`. -/
def get_detailed_feedback (text : List Char) : Feedback :=
  { grammatical_errors :=
      if containsSub "years experience".toList (pyLower text) &&
         !containsSub "years of experience".toList (pyLower text) then [grammarMsg] else []
  , professional_tone :=
      if containsSub "Determined work placement".toList text then [toneMsg] else []
  , unnecessary_information :=
      if containsSub "gpa".toList (pyLower text) &&
         decide (1 < countOcc "gpa".toList (pyLower text)) then [gpaMsg] else []
  , experience_relevance :=
      if (containsSub "childcare".toList (pyLower text) &&
          containsSub "adult care".toList (pyLower text)) ||
         (containsSub "teacher".toList (pyLower text) &&
          containsSub "caregiver".toList (pyLower text)) then [mixedMsg] else []
  , skills_relevance :=
      if !containsSub "skills".toList (pyLower text) then [noSkillsMsg] else [] }

/-- What the main content area renders once the analyze button is handled. -/
inductive ShellView
  | blank
  | errorBox (msg : List Char)
  | resultCard (score : ℚ) (data : ExtractedData) (fb : Feedback)
deriving DecidableEq

/-- One run of the analyze branch: what was rendered, and whether the
analysis core was invoked. -/
structure ShellRun where
  view : ShellView
  coreInvoked : Bool
deriving DecidableEq

/-- Error message for a missing resume file. -/
def uploadErrorMsg : List Char := "Please upload a resume file.".toList

/-- Error message for a missing job description. -/
def jobDescErrorMsg : List Char := "Please provide a job description.".toList

/-- The `if analyze_button:` branch at the bottom of `app.py`, embedded over
the uploaded file (given as its page texts; `none` when no file was
uploaded), the job description, and the classifier confidences.
`coreInvoked` records whether the analysis core (`extract_text_from_pdf`,
`get_resume_score`, `extract_data_from_text`, `get_detailed_feedback`) ran. -/
def run_analyze (analyze_button : Bool) (uploaded_file : Option (List (List Char)))
    (job_description : List Char) (scores : List ℚ) : ShellRun :=
  if analyze_button then
    match uploaded_file with
    | some pages =>
      if job_description.isEmpty then
        { view := .errorBox jobDescErrorMsg, coreInvoked := false }
      else
        let resume_text := extract_text_from_pdf pages
        { view := .resultCard (get_resume_score scores)
            (extract_data_from_text resume_text) (get_detailed_feedback resume_text)
        , coreInvoked := true }
    | none => { view := .errorBox uploadErrorMsg, coreInvoked := false }
  else
    { view := .blank, coreInvoked := false }

/-- The resume text of the round-trip scenario. -/
def scenarioText : List Char :=
  "John Smith\njohn.smith@example.com\n5 years experience\nSkills: Python, SQL".toList

/-- The first line of the text that passes the position-line test. -/
def firstQualifyingLine (t : List Char) : Option (List Char) :=
  (splitLines t).find? lineQualifies

/-- A capitalized word as the name claim describes it: one uppercase letter
followed by one or more lowercase letters. -/
def CapWord (w : List Char) : Prop :=
  ∃ c ls, w = c :: ls ∧ isUpperAZ c = true ∧ ls ≠ [] ∧ ∀ x ∈ ls, isLowerAZ x = true

/-- The claim-side condition on the name field: the text begins, at its very
first character, with a capitalized word followed by one or more further
space-separated capitalized words (and then anything at all). -/
def BeginsWithNameSeq (t : List Char) : Prop :=
  ∃ w ws rest, CapWord w ∧ ws ≠ [] ∧ (∀ u ∈ ws, CapWord u) ∧
    t = w ++ (ws.map (fun u => ' ' :: u)).flatten ++ rest

/-! ## Helper lemmas -/

/-- Membership `containsSub` decides list-infix containment. -/
theorem containsSub_correct (pat s : List Char) :
    containsSub pat s = true ↔ pat <:+: s := by
  induction s with
  | nil =>
    simp [containsSub, List.isEmpty_iff]
  | cons c rest ih =>
    simp only [containsSub, Bool.or_eq_true, List.isPrefixOf_iff_prefix, ih,
      List.infix_cons_iff]

theorem foldl_append_eq_join (pages : List (List Char)) :
    ∀ acc : List Char, pages.foldl (fun acc p => acc ++ p) acc = acc ++ pages.flatten := by
  induction pages with
  | nil => intro acc; simp
  | cons p ps ih => intro acc; simp [List.foldl_cons, ih]

theorem findPosition_eq_find (ls : List (List Char)) :
    findPosition ls = match ls.find? lineQualifies with
      | some l => pyStrip l
      | none => "Not found".toList := by
  induction ls with
  | nil => rfl
  | cons l rest ih =>
    by_cases h : lineQualifies l
    · simp [findPosition, List.find?_cons, h]
    · simp [findPosition, List.find?_cons, h, ih]

theorem containsSub_of_countOccF_pos (pat : List Char) :
    ∀ (fuel : Nat) (s : List Char), 0 < countOccF pat fuel s → containsSub pat s = true := by
  intro fuel
  induction fuel with
  | zero =>
    intro s h
    simp [countOccF] at h
  | succ n ih =>
    intro s h
    cases s with
    | nil => simp [countOccF] at h
    | cons c rest =>
      by_cases hp : pat.isPrefixOf (c :: rest)
      · simp [containsSub, hp]
      · rw [countOccF, if_neg hp] at h
        simp [containsSub, ih rest h]

/-! ## Claim theorems -/

/-- Claim C1: Assuming the classifier returns exactly 7 per-label confidences,
each in `[0,1]`, `get_resume_score` returns the arithmetic mean of those
confidences scaled by 100, and the result lies in `[0,100]`.  (The fixed
candidate label set indeed has 7 labels.) -/
theorem score_mean_and_bounds (scores : List ℚ)
    (h7 : scores.length = 7) (hb : ∀ x ∈ scores, 0 ≤ x ∧ x ≤ 1) :
    candidate_labels.length = 7 ∧
    get_resume_score scores = scores.sum / 7 * 100 ∧
    0 ≤ get_resume_score scores ∧ get_resume_score scores ≤ 100 := by
  have hsum0 : 0 ≤ scores.sum := List.sum_nonneg fun x hx => (hb x hx).1
  have hsum7 : scores.sum ≤ 7 := by
    have h := List.sum_le_card_nsmul scores 1 fun x hx => (hb x hx).2
    rw [h7] at h
    simpa using h
  refine ⟨by decide, ?_, ?_, ?_⟩
  · unfold get_resume_score
    rw [h7]
    norm_num
  · unfold get_resume_score
    positivity
  · unfold get_resume_score
    rw [h7]
    have hdiv : scores.sum / (7 : ℚ) ≤ 1 := by
      rw [div_le_one (by norm_num)]
      exact_mod_cast hsum7
    calc scores.sum / ((7 : ℕ) : ℚ) * 100 = scores.sum / 7 * 100 := by norm_num
      _ ≤ 1 * 100 := by
          exact mul_le_mul_of_nonneg_right hdiv (by norm_num)
      _ = 100 := by norm_num

/-- Witness for `score_mean_and_bounds` at a concrete confidence list. -/
theorem score_mean_and_bounds_witness :
    get_resume_score [1/2, 1/2, 1/2, 1/2, 1/2, 1/2, (1/2 : ℚ)] = 50 ∧
    (0 : ℚ) ≤ get_resume_score [1/2, 1/2, 1/2, 1/2, 1/2, 1/2, (1/2 : ℚ)] := by
  have h := score_mean_and_bounds [1/2, 1/2, 1/2, 1/2, 1/2, 1/2, (1/2 : ℚ)]
    (by decide) (by intro x hx; fin_cases hx <;> norm_num)
  refine ⟨?_, h.2.2.1⟩
  rw [h.2.1]
  norm_num

/-- Claim C8: `extract_text_from_pdf` returns exactly the concatenation of the
per-page texts in page order, and appending an additional page never
shortens the output. -/
theorem extract_text_concat_and_monotone :
    (∀ pages : List (List Char), extract_text_from_pdf pages = pages.flatten) ∧
    (∀ (pages : List (List Char)) (p : List Char),
      (extract_text_from_pdf pages).length ≤ (extract_text_from_pdf (pages ++ [p])).length) := by
  have hjoin : ∀ pages : List (List Char), extract_text_from_pdf pages = pages.flatten := by
    intro pages
    unfold extract_text_from_pdf
    simpa using foldl_append_eq_join pages []
  refine ⟨hjoin, ?_⟩
  intro pages p
  rw [hjoin, hjoin, List.flatten_append]
  simp

/-- Claim C3, counterexample:  On the round-trip scenario text the claim as
stated is false: the skills message carries a trailing period, so it is not
the string "Explicit Skills section found" the claim names. -/
theorem scenario_extraction_counterexample :
    ¬ ((extract_data_from_text scenarioText).name = "John Smith".toList ∧
       (extract_data_from_text scenarioText).email = "john.smith@example.com".toList ∧
       (extract_data_from_text scenarioText).experience = "5 years".toList ∧
       (extract_data_from_text scenarioText).skills = "Explicit Skills section found".toList) := by
  decide

/-- Claim C3, amended:  On the scenario text
`"John Smith\njohn.smith@example.com\n5 years experience\nSkills: Python, SQL"`,
`extract_data_from_text` returns name "John Smith", email
"john.smith@example.com", experience "5 years", and skills
"Explicit Skills section found." (with the trailing period the code
appends). -/
theorem scenario_extraction_amended :
    (extract_data_from_text scenarioText).name = "John Smith".toList ∧
    (extract_data_from_text scenarioText).email = "john.smith@example.com".toList ∧
    (extract_data_from_text scenarioText).experience = "5 years".toList ∧
    (extract_data_from_text scenarioText).skills = "Explicit Skills section found.".toList := by
  decide

/-- Claim C5: For every input text, every one of the five fixed feedback
categories holds a list of length 0 or 1. -/
theorem feedback_categories_at_most_one (t : List Char) :
    ((get_detailed_feedback t).grammatical_errors.length = 0 ∨
      (get_detailed_feedback t).grammatical_errors.length = 1) ∧
    ((get_detailed_feedback t).professional_tone.length = 0 ∨
      (get_detailed_feedback t).professional_tone.length = 1) ∧
    ((get_detailed_feedback t).unnecessary_information.length = 0 ∨
      (get_detailed_feedback t).unnecessary_information.length = 1) ∧
    ((get_detailed_feedback t).experience_relevance.length = 0 ∨
      (get_detailed_feedback t).experience_relevance.length = 1) ∧
    ((get_detailed_feedback t).skills_relevance.length = 0 ∨
      (get_detailed_feedback t).skills_relevance.length = 1) := by
  refine ⟨?_, ?_, ?_, ?_, ?_⟩ <;>
    · dsimp [get_detailed_feedback]
      split <;> simp

/-- Claim C6: The unnecessary-information category holds exactly one GPA
finding when the token "gpa" occurs (case-insensitively) more than once,
and is empty when it occurs at most once; the text
"gpa 3.8 overall gpa" yields exactly that one finding. -/
theorem gpa_rule :
    (∀ t : List Char,
      (1 < countOcc "gpa".toList (pyLower t) →
        (get_detailed_feedback t).unnecessary_information = [gpaMsg]) ∧
      (countOcc "gpa".toList (pyLower t) ≤ 1 →
        (get_detailed_feedback t).unnecessary_information = [])) ∧
    (get_detailed_feedback "gpa 3.8 overall gpa".toList).unnecessary_information = [gpaMsg] := by
  refine ⟨?_, by decide⟩
  intro t
  constructor
  · intro h
    have hpos : 0 < countOccF "gpa".toList (pyLower t).length (pyLower t) := by
      have : 0 < countOcc "gpa".toList (pyLower t) := by omega
      simpa [countOcc] using this
    have hc : containsSub "gpa".toList (pyLower t) = true :=
      containsSub_of_countOccF_pos _ _ _ hpos
    simp only [get_detailed_feedback]
    rw [if_pos]
    exact (Bool.and_eq_true _ _).mpr ⟨hc, by exact decide_eq_true h⟩
  · intro h
    simp only [get_detailed_feedback]
    rw [if_neg]
    intro hcond
    have := (Bool.and_eq_true _ _).mp hcond
    have hlt : 1 < countOcc "gpa".toList (pyLower t) := of_decide_eq_true this.2
    omega

/-- Witness for `gpa_rule`: the two-occurrence scenario text, with the
count hypothesis discharged by evaluation. -/
theorem gpa_rule_witness :
    (get_detailed_feedback "my gpa and my gpa".toList).unnecessary_information = [gpaMsg] :=
  (gpa_rule.1 "my gpa and my gpa".toList).1 (by decide)

/-- Claim C7, counterexample:  The position field is not always the first
qualifying line itself: on the text " Dev" the first qualifying line is
" Dev" but the returned position is the stripped "Dev". -/
theorem position_counterexample :
    firstQualifyingLine " Dev".toList = some " Dev".toList ∧
    (extract_data_from_text " Dev".toList).position ≠ " Dev".toList := by
  decide

/-- Claim C7, amended:  The position field is the whitespace-stripped first
line (in order of the split on newlines) that is shorter than 50 characters
and contains none of the four keywords; the scan stops at that line, and if
no line qualifies the position is "Not found". -/
theorem position_first_qualifying_stripped (t : List Char) :
    (extract_data_from_text t).position =
      match firstQualifyingLine t with
      | some l => pyStrip l
      | none => "Not found".toList := by
  dsimp [extract_data_from_text, firstQualifyingLine]
  exact findPosition_eq_find (splitLines t)

/-- Claim C4: `extract_data_from_text` is total and its five fields each hold
either the corresponding matched (or heuristic) string or the sentinel
"Not found"; in particular a text with no email-pattern match yields
email = "Not found". -/
theorem extraction_never_fails (t : List Char) :
    ((extract_data_from_text t).name = "Not found".toList ∨
      nameSearch t = some (extract_data_from_text t).name) ∧
    ((extract_data_from_text t).position = "Not found".toList ∨
      ∃ l, l ∈ splitLines t ∧ lineQualifies l = true ∧
        (extract_data_from_text t).position = pyStrip l) ∧
    ((extract_data_from_text t).email = "Not found".toList ∨
      emailSearch t = some (extract_data_from_text t).email) ∧
    ((extract_data_from_text t).experience = "Not found".toList ∨
      ∃ g, expSearch (pyLower t) = some g ∧
        (extract_data_from_text t).experience = g ++ " years".toList) ∧
    ((extract_data_from_text t).skills = "Explicit Skills section found.".toList ∨
      (extract_data_from_text t).skills =
        "No explicit skills section is present; consider adding one.".toList) ∧
    (emailSearch t = none → (extract_data_from_text t).email = "Not found".toList) := by
  refine ⟨?_, ?_, ?_, ?_, ?_, ?_⟩
  · cases h : nameSearch t with
    | none => left; dsimp [extract_data_from_text]; rw [h]
    | some m => right; dsimp [extract_data_from_text]; rw [h]
  · have hpos := findPosition_eq_find (splitLines t)
    cases h : (splitLines t).find? lineQualifies with
    | none =>
      left
      dsimp [extract_data_from_text]
      rw [hpos, h]
      rfl
    | some l =>
      right
      refine ⟨l, List.mem_of_find?_eq_some h, List.find?_some h, ?_⟩
      dsimp [extract_data_from_text]
      rw [hpos, h]
  · cases h : emailSearch t with
    | none => left; dsimp [extract_data_from_text]; rw [h]
    | some m => right; dsimp [extract_data_from_text]; rw [h]
  · cases h : expSearch (pyLower t) with
    | none => left; dsimp [extract_data_from_text]; rw [h]
    | some g =>
      right
      refine ⟨g, rfl, ?_⟩
      dsimp [extract_data_from_text]
      rw [h]
  · dsimp [extract_data_from_text]
    split
    · exact Or.inl rfl
    · exact Or.inr rfl
  · intro h
    dsimp [extract_data_from_text]
    rw [h]

/-- Witness for `extraction_never_fails`: a text with no email-like
substring yields the sentinel. -/
theorem extraction_never_fails_witness :
    (extract_data_from_text "hello".toList).email = "Not found".toList :=
  (extraction_never_fails "hello".toList).2.2.2.2.2 (by decide)

/-- Claim C9: With the analyze button pressed: no uploaded file renders the
upload error; a file with an empty job description renders the
job-description error; the two messages are distinct; in the two error
cases the analysis core is not invoked, and it is invoked exactly when both
inputs are present. -/
theorem missing_input_errors :
    (∀ (jd : List Char) (scores : List ℚ),
      run_analyze true none jd scores =
        { view := .errorBox uploadErrorMsg, coreInvoked := false }) ∧
    (∀ (pages : List (List Char)) (scores : List ℚ),
      run_analyze true (some pages) [] scores =
        { view := .errorBox jobDescErrorMsg, coreInvoked := false }) ∧
    uploadErrorMsg ≠ jobDescErrorMsg ∧
    (∀ (pages : List (List Char)) (jd : List Char) (scores : List ℚ),
      jd ≠ [] → (run_analyze true (some pages) jd scores).coreInvoked = true) := by
  refine ⟨fun jd scores => rfl, fun pages scores => rfl, by decide, ?_⟩
  intro pages jd scores h
  have he : jd.isEmpty = false := by
    cases jd with
    | nil => exact absurd rfl h
    | cons c rest => rfl
  simp [run_analyze, he]

/-- Witness for `missing_input_errors`: with both inputs present the core
runs. -/
theorem missing_input_errors_witness :
    (run_analyze true (some [[]]) "jd".toList []).coreInvoked = true :=
  missing_input_errors.2.2.2 [[]] "jd".toList [] (by decide)

theorem cond_list_iff (a b : Bool) (x : List Char) :
    (if a && !b then [x] else ([] : List (List Char))) = [x] ↔ (a = true ∧ b = false) := by
  cases a <;> cases b <;> simp

theorem grammar_field_eq (t : List Char) :
    (get_detailed_feedback t).grammatical_errors =
      (if containsSub "years experience".toList (pyLower t) &&
          !containsSub "years of experience".toList (pyLower t) then [grammarMsg] else []) := rfl

theorem experience_field_eq (t : List Char) :
    (extract_data_from_text t).experience =
      (match expSearch (pyLower t) with
       | some g => g ++ " years".toList
       | none => "Not found".toList) := rfl

theorem exp_result_ne_notfound (g : List Char) :
    g ++ " years".toList ≠ "Not found".toList := by
  intro heq
  have h1 : (g ++ " years".toList).getLast? = some 's' := by
    rw [List.getLast?_append]
    rfl
  rw [heq] at h1
  exact absurd h1 (by decide)

/-- Claim C2: The grammar finding appears exactly when the lowered text
contains "years experience" but not "years of experience"; the text
"I have 5 years experience" triggers it; any text containing
"I have 5 years of experience" does not; the experience field is extracted
exactly when the non-"of" pattern matches, and the "of"-phrased text yields
experience = "Not found". -/
theorem grammar_and_experience_rules :
    (∀ t : List Char,
      ((get_detailed_feedback t).grammatical_errors = [grammarMsg] ↔
        (containsSub "years experience".toList (pyLower t) = true ∧
         containsSub "years of experience".toList (pyLower t) = false))) ∧
    (get_detailed_feedback "I have 5 years experience".toList).grammatical_errors
      = [grammarMsg] ∧
    (∀ t : List Char, containsSub "I have 5 years of experience".toList t = true →
      (get_detailed_feedback t).grammatical_errors = []) ∧
    (∀ t : List Char,
      ((extract_data_from_text t).experience ≠ "Not found".toList ↔
        expSearch (pyLower t) ≠ none)) ∧
    (extract_data_from_text "I have 5 years of experience".toList).experience
      = "Not found".toList := by
  refine ⟨?_, by decide, ?_, ?_, by decide⟩
  · intro t
    rw [grammar_field_eq]
    exact cond_list_iff _ _ _
  · intro t h
    have hinf : "I have 5 years of experience".toList <:+: t :=
      (containsSub_correct _ _).mp h
    have hmap : "i have 5 years of experience".toList <:+: pyLower t := by
      have h2 := List.IsInfix.map pyLowerChar hinf
      have hc : List.map pyLowerChar "I have 5 years of experience".toList =
          "i have 5 years of experience".toList := by decide
      rw [hc] at h2
      exact h2
    have hsub : "years of experience".toList <:+: "i have 5 years of experience".toList :=
      (containsSub_correct _ _).mp (by decide)
    have hy : containsSub "years of experience".toList (pyLower t) = true :=
      (containsSub_correct _ _).mpr (hsub.trans hmap)
    rw [grammar_field_eq, hy]
    simp
  · intro t
    constructor
    · intro hne h
      apply hne
      rw [experience_field_eq, h]
    · intro hne
      obtain ⟨g, hg⟩ := Option.ne_none_iff_exists'.mp hne
      rw [experience_field_eq, hg]
      exact exp_result_ne_notfound g

/-- Witness for `grammar_and_experience_rules`: a longer text containing the
"of"-phrased sentence yields no grammar finding. -/
theorem grammar_and_experience_rules_witness :
    (get_detailed_feedback "xx I have 5 years of experience yy".toList).grammatical_errors
      = [] :=
  grammar_and_experience_rules.2.2.1 _ (by decide)

theorem takeWhile_head_false {p : Char → Bool} (ls : List Char) (d : Char) (qs : List Char)
    (hall : ∀ x ∈ ls, p x = true) (hd : p d = false) :
    (ls ++ d :: qs).takeWhile p = ls ∧ (ls ++ d :: qs).dropWhile p = d :: qs := by
  induction ls with
  | nil => simp [List.takeWhile_cons, List.dropWhile_cons, hd]
  | cons a as ih =>
    have ha : p a = true := hall a (by simp)
    have ih2 := ih fun x hx => hall x (List.mem_cons_of_mem a hx)
    simp [List.takeWhile_cons, List.dropWhile_cons, ha, ih2.1, ih2.2]

theorem parseCapWord_sound {t w r : List Char} (h : parseCapWord t = some (w, r)) :
    CapWord w ∧ t = w ++ r := by
  cases t with
  | nil => simp [parseCapWord] at h
  | cons c rest =>
    dsimp [parseCapWord] at h
    by_cases hu : isUpperAZ c = true
    · rw [if_pos hu] at h
      by_cases he : (rest.takeWhile isLowerAZ).isEmpty = true
      · rw [if_pos he] at h
        simp at h
      · rw [if_neg he] at h
        have h' : (c :: rest.takeWhile isLowerAZ, rest.dropWhile isLowerAZ) = (w, r) :=
          Option.some.inj h
        cases h'
        refine ⟨⟨c, rest.takeWhile isLowerAZ, rfl, hu, ?_, ?_⟩, ?_⟩
        · intro hnil
          rw [hnil] at he
          exact he rfl
        · intro x hx
          have hall := List.all_takeWhile (p := isLowerAZ) (l := rest)
          rw [List.all_eq_true] at hall
          exact hall x hx
        · simp [List.takeWhile_append_dropWhile]
    · rw [if_neg hu] at h
      simp at h

theorem parseCapWord_pos {c : Char} {ls : List Char} (rest : List Char)
    (hu : isUpperAZ c = true) (hne : ls ≠ []) (hall : ∀ x ∈ ls, isLowerAZ x = true) :
    ∃ w r, parseCapWord (c :: (ls ++ rest)) = some (w, r) := by
  cases ls with
  | nil => exact absurd rfl hne
  | cons b bs =>
    have hb : isLowerAZ b = true := hall b (by simp)
    dsimp [parseCapWord]
    rw [if_pos hu]
    have hte : ¬ ((List.takeWhile isLowerAZ (b :: (bs ++ rest))).isEmpty = true) := by
      simp [List.takeWhile_cons, hb]
    rw [if_neg hte]
    exact ⟨_, _, rfl⟩

theorem parseNameTailF_sound :
    ∀ (fuel : Nat) (s : List Char),
      s = (parseNameTailF fuel s).1 ++ (parseNameTailF fuel s).2 ∧
      ((parseNameTailF fuel s).1 = [] ∨
        ∃ ws, ws ≠ [] ∧ (∀ u ∈ ws, CapWord u) ∧
          (parseNameTailF fuel s).1 = (ws.map (fun u => ' ' :: u)).flatten) := by
  intro fuel
  induction fuel with
  | zero =>
    intro s
    exact ⟨rfl, Or.inl rfl⟩
  | succ n ih =>
    intro s
    cases s with
    | nil => exact ⟨rfl, Or.inl rfl⟩
    | cons c rest =>
      by_cases hc : c = ' '
      · subst hc
        dsimp [parseNameTailF]
        cases hp : parseCapWord rest with
        | none => exact ⟨rfl, Or.inl rfl⟩
        | some wr =>
          obtain ⟨w, r⟩ := wr
          obtain ⟨hw, ht⟩ := parseCapWord_sound hp
          obtain ⟨hs, hws⟩ := ih r
          constructor
          · calc (' ' : Char) :: rest
                = ' ' :: (w ++ r) := by rw [ht]
              _ = ' ' :: (w ++ ((parseNameTailF n r).1 ++ (parseNameTailF n r).2)) := by
                  exact congrArg (fun x => ' ' :: (w ++ x)) hs
              _ = (' ' :: (w ++ (parseNameTailF n r).1)) ++ (parseNameTailF n r).2 := by
                  simp
          · right
            cases hws with
            | inl hnil =>
              refine ⟨[w], by simp, ?_, ?_⟩
              · intro u hu
                rw [List.mem_singleton] at hu
                subst hu
                exact hw
              · dsimp
                rw [hnil]
            | inr hex =>
              obtain ⟨ws, hne, hall, hm⟩ := hex
              refine ⟨w :: ws, by simp, ?_, ?_⟩
              · intro u hu
                rcases List.mem_cons.mp hu with h | h
                · subst h
                  exact hw
                · exact hall u h
              · dsimp
                rw [hm]
      · have heq : parseNameTailF (n + 1) (c :: rest) = ([], c :: rest) := by
          dsimp [parseNameTailF]
          rw [if_neg hc]
        rw [heq]
        exact ⟨rfl, Or.inl rfl⟩

theorem begins_of_nameSearch {t m : List Char} (h : nameSearch t = some m) :
    BeginsWithNameSeq t := by
  dsimp [nameSearch] at h
  cases hp : parseCapWord t with
  | none =>
    rw [hp] at h
    simp at h
  | some wr =>
    obtain ⟨w, r⟩ := wr
    rw [hp] at h
    dsimp at h
    by_cases he : (parseNameTailF r.length r).1.isEmpty = true
    · rw [if_pos he] at h
      simp at h
    · rw [if_neg he] at h
      obtain ⟨hw, ht⟩ := parseCapWord_sound hp
      obtain ⟨hr, hws⟩ := parseNameTailF_sound r.length r
      cases hws with
      | inl hnil =>
        rw [hnil] at he
        simp at he
      | inr hex =>
        obtain ⟨ws, hne, hall, hm⟩ := hex
        refine ⟨w, ws, (parseNameTailF r.length r).2, hw, hne, hall, ?_⟩
        calc t = w ++ r := ht
          _ = w ++ ((parseNameTailF r.length r).1 ++ (parseNameTailF r.length r).2) :=
              congrArg (fun x => w ++ x) hr
          _ = w ++ (parseNameTailF r.length r).1 ++ (parseNameTailF r.length r).2 := by
              rw [List.append_assoc]
          _ = w ++ (ws.map (fun u => ' ' :: u)).flatten ++ (parseNameTailF r.length r).2 := by
              rw [hm]

theorem parseNameTailF_space_ne_nil {R w2 r2 : List Char}
    (hp : parseCapWord R = some (w2, r2)) (fuel : Nat) :
    (parseNameTailF (fuel + 1) (' ' :: R)).1 ≠ [] := by
  dsimp [parseNameTailF]
  rw [hp]
  simp

theorem nameSearch_of_begins {t : List Char} (h : BeginsWithNameSeq t) :
    nameSearch t ≠ none := by
  obtain ⟨w, ws, rest, hw, hne, hall, ht⟩ := h
  obtain ⟨c, ls, rfl, hu, hlne, hls⟩ := hw
  cases ws with
  | nil => exact absurd rfl hne
  | cons u ws2 =>
    obtain ⟨c1, ls1, hueq, hu1, hl1ne, hls1⟩ := hall u (by simp)
    have ht' : t = c :: (ls ++ ' ' ::
        (c1 :: (ls1 ++ ((ws2.map (fun v => ' ' :: v)).flatten ++ rest)))) := by
      rw [ht, hueq]
      simp [List.append_assoc]
    rw [ht']
    dsimp [nameSearch]
    have hcap := takeWhile_head_false ls ' '
      (c1 :: (ls1 ++ ((ws2.map (fun v => ' ' :: v)).flatten ++ rest))) hls (by decide)
    rw [parseCapWord]
    rw [if_pos hu, hcap.1, hcap.2]
    rw [if_neg (by simpa [List.isEmpty_iff] using hlne)]
    dsimp
    obtain ⟨w2, r2, hp2⟩ :=
      parseCapWord_pos ((ws2.map (fun v => ' ' :: v)).flatten ++ rest) hu1 hl1ne hls1
    have hne2 := parseNameTailF_space_ne_nil hp2
      (c1 :: (ls1 ++ ((ws2.map (fun v => ' ' :: v)).flatten ++ rest))).length
    rw [if_neg (by simpa [List.isEmpty_iff] using hne2)]
    simp

theorem nameSearch_ne_notfound {t m : List Char} (h : nameSearch t = some m) :
    m ≠ "Not found".toList := by
  dsimp [nameSearch] at h
  cases hp : parseCapWord t with
  | none =>
    rw [hp] at h
    simp at h
  | some wr =>
    obtain ⟨w, r⟩ := wr
    rw [hp] at h
    dsimp at h
    by_cases he : (parseNameTailF r.length r).1.isEmpty = true
    · rw [if_pos he] at h
      simp at h
    · rw [if_neg he] at h
      have hm : m = w ++ (parseNameTailF r.length r).1 := (Option.some.inj h).symm
      obtain ⟨hw, -⟩ := parseCapWord_sound hp
      obtain ⟨-, hws⟩ := parseNameTailF_sound r.length r
      cases hws with
      | inl hnil =>
        rw [hnil] at he
        simp at he
      | inr hex =>
        obtain ⟨ws, hne, hall, hflat⟩ := hex
        obtain ⟨c, ls, rfl, hu, hlne, hls⟩ := hw
        cases ws with
        | nil => exact absurd rfl hne
        | cons u ws2 =>
          obtain ⟨c1, ls1, hueq, hu1, -, -⟩ := hall u (by simp)
          have hm2 : m = c :: (ls ++ ' ' ::
              (c1 :: (ls1 ++ (ws2.map (fun v => ' ' :: v)).flatten))) := by
            rw [hm, hflat, hueq]
            simp [List.append_assoc]
          intro heq
          rw [hm2] at heq
          have hnf : "Not found".toList = ['N', 'o', 't', ' ', 'f', 'o', 'u', 'n', 'd'] := rfl
          rw [hnf] at heq
          rcases ls with - | ⟨a, ls'⟩
          · exact absurd rfl hlne
          rcases ls' with - | ⟨b, ls''⟩
          · simp only [List.cons_append, List.nil_append, List.cons.injEq] at heq
            exact absurd heq.2.2.1 (by decide)
          rcases ls'' with - | ⟨e, ls3⟩
          · simp only [List.cons_append, List.nil_append, List.cons.injEq] at heq
            have hc1 : c1 = 'f' := heq.2.2.2.2.1
            rw [hc1] at hu1
            exact absurd hu1 (by decide)
          · simp only [List.cons_append, List.nil_append, List.cons.injEq] at heq
            have he' : e = ' ' := heq.2.2.2.1
            have hmem : isLowerAZ e = true := hls e (by simp)
            rw [he'] at hmem
            exact absurd hmem (by decide)

theorem name_field_eq (t : List Char) :
    (extract_data_from_text t).name =
      (match nameSearch t with
       | some m => m
       | none => "Not found".toList) := rfl

/-- Claim C10: The name field differs from "Not found" exactly when the text
begins, at its very first character, with a capitalized word followed by one
or more further space-separated capitalized words; a matching sequence
occurring only later in the text (after a leading blank line, whitespace, or
a lowercase prefix) yields name = "Not found". -/
theorem name_anchored_iff :
    (∀ t : List Char,
      ((extract_data_from_text t).name ≠ "Not found".toList ↔ BeginsWithNameSeq t)) ∧
    (extract_data_from_text "\nJohn Smith".toList).name = "Not found".toList ∧
    (extract_data_from_text " John Smith".toList).name = "Not found".toList ∧
    (extract_data_from_text "x John Smith".toList).name = "Not found".toList := by
  refine ⟨?_, by decide, by decide, by decide⟩
  intro t
  constructor
  · intro hne
    cases hs : nameSearch t with
    | none =>
      exfalso
      apply hne
      rw [name_field_eq, hs]
    | some m => exact begins_of_nameSearch hs
  · intro hb
    obtain ⟨m, hm⟩ := Option.ne_none_iff_exists'.mp (nameSearch_of_begins hb)
    rw [name_field_eq, hm]
    exact nameSearch_ne_notfound hm

/-- Witness for `name_anchored_iff`: the text "John Smith" begins with a
capitalized two-word sequence. -/
theorem name_anchored_iff_witness : BeginsWithNameSeq "John Smith".toList :=
  (name_anchored_iff.1 "John Smith".toList).mp (by decide)











end ResumeReviewer
